import Mathlib

/-!
# A verification model of `puzzle_net`'s core (`src/game.rs`)

This file gives a shallow embedding of the data model and of the generation
algorithm of the rotational-pipe puzzle, and proves properties of it.

Conventions of the embedding:
* `usize` values become `Nat`; signed intermediate coordinates become `Int`.
* Rust `Vec<Cell>` becomes `List Cell`, indexed as in the source by
  `x + width * y`.
* Fallible operations return `Except GameError _` exactly where the source
  returns `Result<_, GameError>`.  Operations that can panic (`unwrap`,
  `expect`) return `Option _`, with `none` marking the panic.
* The global random generator is replaced by an explicit oracle
  `O : Nat → Nat` together with a counter: a random uniform choice out of a
  list `l` is modelled as `l.get? (O k % l.length)`, which reaches every
  element of `l` for a suitable oracle and never leaves `l`.
* The unbounded `loop` of `Game::random_valid` is modelled by a step
  function plus fuel; `RunResult.timeout` is an artifact of the embedding,
  `RunResult.panicked` models a Rust panic.
-/

namespace PuzzleNet

inductive GameError where
  | CellIsLocked
  | InvalidCell
deriving DecidableEq, Repr

inductive CellVersion where
  | Single
  | Angle
  | Line
  | Triple
deriving DecidableEq, Repr

inductive CellOrientation where
  | North
  | East
  | South
  | West
deriving DecidableEq, Repr

namespace CellOrientation

/-- The `#[repr(u8)]` discriminant of an orientation. -/
def toRepr : CellOrientation → Nat
  | North => 0
  | East => 1
  | South => 2
  | West => 3

/-- `CellOrientation::rotate`: `from_repr((self + direction) % 4).unwrap()`.
The `unwrap` cannot fail since the argument is reduced mod 4, so the match
below is total on the residues. -/
def rotate (o direction : CellOrientation) : CellOrientation :=
  match (o.toRepr + direction.toRepr) % 4 with
  | 0 => North
  | 1 => East
  | 2 => South
  | _ => West

/-- `CellOrientation::shift`, the unit offset of a direction.  North points
towards larger `y`. -/
def shift : CellOrientation → Int × Int
  | North => (0, 1)
  | East => (1, 0)
  | South => (0, -1)
  | West => (-1, 0)

/-- `CellOrientation::reverse`: rotation by `from_repr(2).unwrap() = South`. -/
def reverse (o : CellOrientation) : CellOrientation :=
  o.rotate South

/-- `CellOrientation::step_from`: offset a position, `None` when either
coordinate would become negative (the upper bound is left to the grid). -/
def step_from (o : CellOrientation) (x y : Nat) : Option (Nat × Nat) :=
  let nx : Int := (x : Int) + o.shift.1
  let ny : Int := (y : Int) + o.shift.2
  if 0 ≤ nx ∧ 0 ≤ ny then some (nx.toNat, ny.toNat) else none

end CellOrientation

structure Cell where
  version : CellVersion
  orientation : CellOrientation
  locked : Bool
  powered : Bool
deriving DecidableEq, Repr

namespace Cell

/-- `Cell::connects`: the base connection list of the shape, each entry
rotated by the cell's orientation. -/
def connects (c : Cell) : List CellOrientation :=
  (match c.version with
   | .Single => [CellOrientation.North]
   | .Angle => [CellOrientation.North, CellOrientation.East]
   | .Line => [CellOrientation.North, CellOrientation.South]
   | .Triple => [CellOrientation.East, CellOrientation.South, CellOrientation.West]
  ).map (fun v : CellOrientation => v.rotate c.orientation)

/-- `Cell::matches_constraints`. -/
def matches_constraints (c : Cell) (constraints : List (CellOrientation × Bool)) : Bool :=
  constraints.all (fun p =>
    if p.2 then c.connects.any (fun d => d == p.1)
    else c.connects.all (fun d => d != p.1))

/-- `Cell::all_possible`: `iproduct!(versions, orientations)`, version in the
outer loop, all cells unlocked and unpowered. -/
def all_possible : List Cell :=
  [CellVersion.Single, CellVersion.Angle, CellVersion.Line, CellVersion.Triple].flatMap
    (fun v => [CellOrientation.North, CellOrientation.East,
               CellOrientation.South, CellOrientation.West].map
      (fun o => { version := v, orientation := o, locked := false, powered := false }))

/-- `Cell::random_that_matches_constraints`, with the random choice made
explicit: `choice` indexes into the filtered candidate list.  `none` models
the `expect` panic on an empty candidate list (`choice % 0 = choice` lies
outside the empty list). -/
def random_that_matches_constraints
    (constraints : List (CellOrientation × Bool)) (choice : Nat) : Option Cell :=
  let l := all_possible.filter (fun c => c.matches_constraints constraints)
  l.get? (choice % l.length)

end Cell

structure Game where
  width : Nat
  height : Nat
  grid : List Cell
deriving DecidableEq, Repr

namespace Game

/-- `Game::new`. -/
def new (width height : Nat) : Game :=
  { width := width, height := height,
    grid := List.replicate (width * height)
      { version := .Single, orientation := .North, locked := false, powered := false } }

/-- `Game::get_cell`. -/
def get_cell (g : Game) (x y : Nat) : Option Cell :=
  if x ≥ g.width ∨ y ≥ g.height then none
  else g.grid.get? (x + g.width * y)

/-- `Game::set_cell`. -/
def set_cell (g : Game) (x y : Nat) (cell : Cell) : Except GameError Game :=
  if (g.get_cell x y).isSome then
    .ok { g with grid := g.grid.set (x + g.width * y) cell }
  else .error .InvalidCell

/-- `Game::set_lock`, built as in the source on `get_mut_cell`, which checks
only the flat index `x + width * y` against the backing array. -/
def set_lock (g : Game) (x y : Nat) (lock : Bool) : Except GameError Game :=
  match g.grid.get? (x + g.width * y) with
  | some c => .ok { g with grid := g.grid.set (x + g.width * y) { c with locked := lock } }
  | none => .error .InvalidCell

/-- `Game::power_cell`, also via `get_mut_cell`; always sets the flag true. -/
def power_cell (g : Game) (x y : Nat) : Except GameError Game :=
  match g.grid.get? (x + g.width * y) with
  | some c => .ok { g with grid := g.grid.set (x + g.width * y) { c with powered := true } }
  | none => .error .InvalidCell

/-- `Game::set_cell_orientation`, via `get_mut_cell`. -/
def set_cell_orientation (g : Game) (x y : Nat) (orientation : CellOrientation) :
    Except GameError Game :=
  match g.grid.get? (x + g.width * y) with
  | some c =>
    if c.locked then .error .CellIsLocked
    else .ok { g with grid := g.grid.set (x + g.width * y) { c with orientation := orientation } }
  | none => .error .InvalidCell

/-- `Game::get_neighbor_at_direction`. -/
def get_neighbor_at_direction (g : Game) (x y : Nat) (direction : CellOrientation) :
    Option Cell :=
  match direction.step_from x y with
  | some p => g.get_cell p.1 p.2
  | none => none

/-- `Game::get_neighbors`: directions in enum order North, East, South, West. -/
def get_neighbors (g : Game) (x y : Nat) : List (CellOrientation × Cell) :=
  [CellOrientation.North, CellOrientation.East,
   CellOrientation.South, CellOrientation.West].filterMap
    (fun dir => (g.get_neighbor_at_direction x y dir).map (fun c => (dir, c)))

/-- Loop of `Game::get_non_locked_connections` over the connection list.
`none` marks the panic of the inner `step_from(x, y).unwrap()`. -/
def nonLockedConnAux (g : Game) (x y : Nat) :
    List CellOrientation → Option (List (Nat × Nat))
  | [] => some []
  | dir :: ds =>
    match g.get_neighbor_at_direction x y dir with
    | some neigh =>
      if neigh.locked then nonLockedConnAux g x y ds
      else
        match dir.step_from x y with
        | some p => (nonLockedConnAux g x y ds).map (fun l => p :: l)
        | none => none
    | none => nonLockedConnAux g x y ds

/-- `Game::get_non_locked_connections`; the outer `none` marks the panic of
`get_cell(x, y).unwrap()`. -/
def get_non_locked_connections (g : Game) (x y : Nat) : Option (List (Nat × Nat)) :=
  match g.get_cell x y with
  | some c => nonLockedConnAux g x y c.connects
  | none => none

/-- `Game::get_cell_constraints`, directions in enum order. -/
def get_cell_constraints (g : Game) (x y : Nat) : List (CellOrientation × Bool) :=
  [CellOrientation.North, CellOrientation.East,
   CellOrientation.South, CellOrientation.West].filterMap
    (fun dir =>
      match g.get_neighbor_at_direction x y dir with
      | some c =>
        if c.locked then some (dir, c.connects.any (fun d => d.reverse == dir))
        else none
      | none => some (dir, false))

/-- Traversal underlying `Game::cells`; `none` marks the panic of the
`get_cell(x, y).unwrap()` inside the `map` closure. -/
def cellsAux (g : Game) : List (Nat × Nat) → Option (List (Nat × Nat × Cell))
  | [] => some []
  | p :: rest =>
    match g.get_cell p.1 p.2 with
    | some c => (cellsAux g rest).map (fun l => (p.1, p.2, c) :: l)
    | none => none

/-- `Game::cells`: `iproduct!(0..height, 0..width).map(|(x, y)| ...)` —
faithfully, the variable named `x` ranges over `0..height` (outer) and the
one named `y` over `0..width` (inner), exactly as the source binds them. -/
def cells (g : Game) : Option (List (Nat × Nat × Cell)) :=
  cellsAux g ((List.range g.height).flatMap (fun x => (List.range g.width).map (fun y => (x, y))))

end Game

/-! ## The generator `Game::random_valid` as a step machine -/

/-- The loop state of `Game::random_valid`: the grid under construction, the
explore queue (a FIFO: pop at the head, push at the tail), the position of
the random oracle, and a count of executed repair passes. -/
structure GenState where
  game : Game
  queue : List (Nat × Nat)
  ctr : Nat
  repairs : Nat
deriving Repr

/-- Outcome of a run of the generator. -/
inductive RunResult where
  | ok : Game → Nat → RunResult
  | panicked : RunResult
  | timeout : RunResult
deriving DecidableEq, Repr

/-- One step of the machine either finishes with a `RunResult` or continues
in a new state. -/
inductive StepRes where
  | done : RunResult → StepRes
  | next : GenState → StepRes
deriving Repr

/-- The soft-constraint `filter_map` of the drain loop: for each neighbor
`(dir, cell)` of the popped `(x, y)`, emit `(dir, false)` when the neighbor
is unlocked and its position sits in the remaining queue.  `none` marks the
panic of the `step_from(x, y).unwrap()` inside the closure. -/
def softConstraintsAux (x y : Nat) (rest : List (Nat × Nat)) :
    List (CellOrientation × Cell) → Option (List (CellOrientation × Bool))
  | [] => some []
  | (dir, c) :: more =>
    if c.locked then softConstraintsAux x y rest more
    else
      match dir.step_from x y with
      | some p =>
        if rest.any (fun q => q == p) then
          (softConstraintsAux x y rest more).map (fun l => (dir, false) :: l)
        else softConstraintsAux x y rest more
      | none => none

/-- The body of the inner `while let Some((x, y)) = queue.pop_front()` loop:
derive hard and soft constraints, sample a matching cell, write and lock it,
and push its unlocked connected neighbors. -/
def processCell (O : Nat → Nat) (s : GenState) (x y : Nat)
    (rest : List (Nat × Nat)) : StepRes :=
  let hard := s.game.get_cell_constraints x y
  match softConstraintsAux x y rest (s.game.get_neighbors x y) with
  | none => .done .panicked
  | some soft =>
    match Cell.random_that_matches_constraints (hard ++ soft) (O s.ctr) with
    | none => .done .panicked
    | some cell =>
      match s.game.set_cell x y cell with
      | .error _ => .done .panicked
      | .ok g1 =>
        match g1.set_lock x y true with
        | .error _ => .done .panicked
        | .ok g2 =>
          match g2.get_non_locked_connections x y with
          | none => .done .panicked
          | some pushes =>
            .next { game := g2, queue := rest ++ pushes,
                    ctr := s.ctr + 1, repairs := s.repairs }

/-- The repair-scan `filter_map`: every unlocked cell that has a locked,
non-`Triple` neighbor contributes `(x, y, dir)` for the first such neighbor
in enum direction order. -/
def scanCandidatesAux (g : Game) :
    List (Nat × Nat × Cell) → List (Nat × Nat × CellOrientation)
  | [] => []
  | (x, y, c) :: rest =>
    if c.locked then scanCandidatesAux g rest
    else
      match (g.get_neighbors x y).findSome? (fun p =>
        if p.2.locked && p.2.version != CellVersion.Triple then some (x, y, p.1)
        else none) with
      | some t => t :: scanCandidatesAux g rest
      | none => scanCandidatesAux g rest

/-- The repair pass on a chosen candidate `(x, y, dir)`: unlock the locked
neighbor, re-sample it with an added "must connect back" constraint, re-lock
it and re-seed the queue from its unlocked connections. -/
def repairStep (O : Nat → Nat) (s : GenState) (x y : Nat)
    (dir : CellOrientation) : StepRes :=
  match dir.step_from x y with
  | none => .done .panicked
  | some lp =>
    match s.game.set_lock lp.1 lp.2 false with
    | .error _ => .done .panicked
    | .ok g1 =>
      let constraints := g1.get_cell_constraints lp.1 lp.2 ++ [(dir.reverse, true)]
      match Cell.random_that_matches_constraints constraints (O (s.ctr + 1)) with
      | .none => .done .panicked
      | .some cell =>
        match g1.set_cell lp.1 lp.2 cell with
        | .error _ => .done .panicked
        | .ok g2 =>
          match g2.set_lock lp.1 lp.2 true with
          | .error _ => .done .panicked
          | .ok g3 =>
            match g3.get_non_locked_connections lp.1 lp.2 with
            | none => .done .panicked
            | some pushes =>
              .next { game := g3, queue := pushes,
                      ctr := s.ctr + 2, repairs := s.repairs + 1 }

/-- One step of `Game::random_valid`: pop and place when the queue is
nonempty; otherwise run the repair scan, finishing when it finds nothing. -/
def stepFn (O : Nat → Nat) (s : GenState) : StepRes :=
  match s.queue with
  | p :: rest => processCell O s p.1 p.2 rest
  | [] =>
    match s.game.cells with
    | none => .done .panicked
    | some triples =>
      match scanCandidatesAux s.game triples with
      | [] => .done (.ok s.game s.repairs)
      | c :: cs =>
        match (c :: cs).get? (O s.ctr % (c :: cs).length) with
        | some t => repairStep O s t.1 t.2.1 t.2.2
        | none => .done .panicked

/-- Iterate `stepFn` with fuel. -/
def runLoop (O : Nat → Nat) : Nat → GenState → RunResult
  | 0, _ => .timeout
  | gas + 1, s =>
    match stepFn O s with
    | .done r => r
    | .next s' => runLoop O gas s'

/-- The initial state of `Game::random_valid`: a fresh board and the center
piece on the queue. -/
def initState (width height : Nat) : GenState :=
  { game := Game.new width height, queue := [(width / 2, height / 2)],
    ctr := 0, repairs := 0 }

/-- `Game::random_valid`, parametrized by the random oracle and by fuel. -/
def Game.random_valid (width height : Nat) (O : Nat → Nat) (gas : Nat) : RunResult :=
  runLoop O gas (initState width height)

/-! ## The fixed degree of each shape (spec, §3) -/

/-- The "fixed degree" of a shape as the spec states it: 1 for `Single`,
2 for `Angle`, 2 for `Line`, 3 for `Triple`. -/
def CellVersion.fixedDegree : CellVersion → Nat
  | .Single => 1
  | .Angle => 2
  | .Line => 2
  | .Triple => 3

/-- C9: for every cell — every shape and every one of the 4 orientations, and
any lock/power flags — the set of directions returned by `connects` has
cardinality equal to the shape's fixed degree, independent of orientation. -/
theorem connects_card_eq_fixedDegree (v : CellVersion) (o : CellOrientation) (l p : Bool) :
    (Cell.connects { version := v, orientation := o, locked := l, powered := p }).toFinset.card
      = v.fixedDegree := by
  cases v <;> cases o <;> cases l <;> cases p <;> decide

/-! ## The constraint sequence (C4) -/

/-- The constraint sequence exactly as the spec words it: per direction in
cyclic order, `(dir, false)` at a wall, `(dir, connections-of-the-locked-
neighbor contains dir.opposite)` at a locked neighbor, nothing at an
unlocked neighbor. -/
def cellConstraintsSpec (g : Game) (x y : Nat) : List (CellOrientation × Bool) :=
  [CellOrientation.North, CellOrientation.East,
   CellOrientation.South, CellOrientation.West].filterMap
    (fun dir =>
      match g.get_neighbor_at_direction x y dir with
      | none => some (dir, false)
      | some c => if c.locked then some (dir, c.connects.contains dir.reverse) else none)

theorem reverse_beq_comm (d dir : CellOrientation) :
    (d.reverse == dir) = (dir.reverse == d) := by
  cases d <;> cases dir <;> decide

theorem any_reverse_eq_contains (l : List CellOrientation) (dir : CellOrientation) :
    l.any (fun d => d.reverse == dir) = l.contains dir.reverse := by
  induction l with
  | nil => rfl
  | cons a t ih =>
    simp only [List.any_cons, List.contains_cons, ih, reverse_beq_comm a dir]

/-- C4: for every grid and in-bounds position, `get_cell_constraints` emits
exactly the sequence described by the spec: per direction in cyclic order
North, East, South, West, `(dir, false)` when there is no neighbor, `(dir, b)`
with `b` true iff the locked neighbor's connections contain the opposite
direction, and nothing when the neighbor is unlocked. -/
theorem get_cell_constraints_eq_spec (g : Game) (x y : Nat)
    (hx : x < g.width) (hy : y < g.height) :
    g.get_cell_constraints x y = cellConstraintsSpec g x y := by
  unfold Game.get_cell_constraints cellConstraintsSpec
  apply List.filterMap_congr
  intro dir _
  cases h : g.get_neighbor_at_direction x y dir with
  | none => rfl
  | some c =>
    by_cases hc : c.locked = true
    · simp only [hc, if_true, any_reverse_eq_contains]
    · simp only [Bool.not_eq_true] at hc
      simp only [hc]
      rfl

theorem get_cell_constraints_eq_spec_witness :
    (Game.new 2 2).get_cell_constraints 0 0 = cellConstraintsSpec (Game.new 2 2) 0 0 :=
  get_cell_constraints_eq_spec (Game.new 2 2) 0 0 (by decide) (by decide)

/-! ## The cell enumeration `Game::cells` (C5)

The source binds the tuple of `iproduct!(0..height, 0..width)` as `(x, y)`,
so the component named `x` ranges over `0..height` in the outer loop.  On a
2×1 board the lookup `get_cell(0, 1)` is out of bounds and the `unwrap`
panics; on a square board the enumeration yields the first component in the
outer (slow) position instead of row-major order. -/

/-- C5 evidence: `cells` panics on the non-square `2×1` board, and on the
`2×2` board it yields the coordinate pairs with the first component varying
slowly — `(0,0), (0,1), (1,0), (1,1)` — not in row-major order (which would
be `(0,0), (1,0), (0,1), (1,1)`). -/
theorem cells_2x1_panics_and_2x2_column_order :
    (Game.new 2 1).cells = none ∧
    ((Game.new 2 2).cells).map (fun l => l.map (fun t => (t.1, t.2.1)))
      = some [(0, 0), (0, 1), (1, 0), (1, 1)] := by
  constructor
  · decide
  · decide

/-! ## Flag setters `Game::set_lock` / `Game::power_cell` (C6)

Both go through `get_mut_cell`, which checks only the flat index
`x + width * y` against the backing array, not `x < width`. -/

/-- C6 counterexample: on a 2×2 board the position `(3, 0)` is out of bounds
(`3 ≥ width`), yet `set_lock 3 0 true` does not return `InvalidCell`; it
succeeds and sets the lock flag of the cell stored at `(1, 1)`. -/
theorem set_lock_oob_succeeds_and_aliases :
    (Game.new 2 2).set_lock 3 0 true ≠ .error .InvalidCell ∧
    (((Game.new 2 2).set_lock 3 0 true).toOption.bind
        (fun g => g.get_cell 1 1)).map Cell.locked = some true := by
  constructor
  · exact fun h => nomatch h
  · decide

/-- C6 (amended): `set_lock` and `power_cell` return `InvalidCell` iff the
flat index `x + width * y` falls outside the backing array; when it is inside
they succeed and replace exactly the cell stored at that flat index, updating
only the corresponding flag.  (The flat index agrees with the position
`(x, y)` exactly when `(x, y)` is in bounds.) -/
theorem set_lock_power_cell_flat_index_spec (g : Game) (x y : Nat) (b : Bool) :
    (g.grid.length ≤ x + g.width * y →
       g.set_lock x y b = .error .InvalidCell ∧
       g.power_cell x y = .error .InvalidCell) ∧
    (∀ c, g.grid.get? (x + g.width * y) = some c →
       g.set_lock x y b =
         .ok { g with grid := g.grid.set (x + g.width * y) { c with locked := b } } ∧
       g.power_cell x y =
         .ok { g with grid := g.grid.set (x + g.width * y) { c with powered := true } }) := by
  constructor
  · intro hlen
    have hnone : g.grid.get? (x + g.width * y) = none := List.get?_eq_none.mpr hlen
    rw [List.get?_eq_getElem?] at hnone
    constructor
    · simp [Game.set_lock, hnone]
    · simp [Game.power_cell, hnone]
  · intro c hc
    rw [List.get?_eq_getElem?] at hc
    constructor
    · simp [Game.set_lock, hc]
    · simp [Game.power_cell, hc]

theorem set_lock_power_cell_flat_index_spec_witness :
    (Game.new 2 2).set_lock 0 1 true ≠ .error .InvalidCell ∧
    (Game.new 2 2).power_cell 0 1 ≠ .error .InvalidCell := by
  obtain ⟨h1, h2⟩ :=
    (set_lock_power_cell_flat_index_spec (Game.new 2 2) 0 1 true).2
      { version := .Single, orientation := .North, locked := false, powered := false }
      (by decide)
  rw [h1, h2]
  constructor
  · intro h
    cases h
  · intro h
    cases h

/-! ## `Game::set_cell_orientation` (C7) -/

/-- C7: at an in-bounds position holding cell `c`, `set_cell_orientation`
fails with `CellIsLocked` (leaving the grid untouched) when `c` is locked,
and otherwise succeeds and replaces exactly the cell at `x + width * y` with
`c` carrying the new orientation — shape, lock flag, power flag and every
other cell unchanged. -/
theorem set_cell_orientation_spec (g : Game) (x y : Nat) (o : CellOrientation) (c : Cell)
    (hc : g.get_cell x y = some c) :
    (c.locked = true → g.set_cell_orientation x y o = .error .CellIsLocked) ∧
    (c.locked = false → g.set_cell_orientation x y o =
      .ok { g with grid := g.grid.set (x + g.width * y) { c with orientation := o } }) := by
  have hget : g.grid.get? (x + g.width * y) = some c := by
    unfold Game.get_cell at hc
    by_cases hb : x ≥ g.width ∨ y ≥ g.height
    · simp [hb] at hc
    · simpa [hb] using hc
  rw [List.get?_eq_getElem?] at hget
  constructor
  · intro hl
    simp [Game.set_cell_orientation, hget, hl]
  · intro hl
    simp [Game.set_cell_orientation, hget, hl]

theorem set_cell_orientation_spec_witness :
    (Game.new 1 1).set_cell_orientation 0 0 .East =
      .ok { width := 1, height := 1,
            grid := [{ version := .Single, orientation := .East,
                       locked := false, powered := false }] } := by
  have h :=
    (set_cell_orientation_spec (Game.new 1 1) 0 0 .East
      { version := .Single, orientation := .North, locked := false, powered := false }
      (by decide)).2 rfl
  rw [h]
  rfl

/-! ## `Game::get_non_locked_connections` (C10) -/

theorem nonLockedConnAux_isSome (g : Game) (x y : Nat) :
    ∀ ds : List CellOrientation, (g.nonLockedConnAux x y ds).isSome := by
  intro ds
  induction ds with
  | nil => rfl
  | cons dir rest ih =>
    unfold Game.nonLockedConnAux
    cases h : g.get_neighbor_at_direction x y dir with
    | none => exact ih
    | some neigh =>
      by_cases hl : neigh.locked = true
      · simp only [hl, if_true]
        exact ih
      · simp only [Bool.not_eq_true] at hl
        simp only [hl, Bool.false_eq_true, if_false]
        cases hs : dir.step_from x y with
        | none =>
          unfold Game.get_neighbor_at_direction at h
          rw [hs] at h
          cases h
        | some p =>
          simpa [Option.isSome_map] using ih

/-- C10: `get_non_locked_connections` is total on in-bounds positions of a
well-formed grid (its internal `unwrap`s always succeed) but panics — modeled
as `none` — on every out-of-bounds position. -/
theorem get_non_locked_connections_partiality (g : Game) (x y : Nat) :
    (g.grid.length = g.width * g.height → x < g.width → y < g.height →
      (g.get_non_locked_connections x y).isSome) ∧
    (g.width ≤ x ∨ g.height ≤ y → g.get_non_locked_connections x y = none) := by
  constructor
  · intro hlen hx hy
    have hidx : x + g.width * y < g.grid.length := by
      rw [hlen]
      calc x + g.width * y < g.width + g.width * y := by omega
        _ = g.width * (y + 1) := by ring
        _ ≤ g.width * g.height := Nat.mul_le_mul_left _ (by omega)
    have hbound : ¬(x ≥ g.width ∨ y ≥ g.height) := by omega
    cases hgc : g.grid.get? (x + g.width * y) with
    | none =>
      exfalso
      have := List.get?_eq_none.mp hgc
      omega
    | some c =>
      rw [List.get?_eq_getElem?] at hgc
      unfold Game.get_non_locked_connections
      rw [show g.get_cell x y = some c by simp [Game.get_cell, hbound]; exact hgc]
      exact nonLockedConnAux_isSome g x y c.connects
  · intro hoob
    unfold Game.get_non_locked_connections
    rw [show g.get_cell x y = none by simp [Game.get_cell]; omega]

theorem get_non_locked_connections_partiality_witness :
    ((Game.new 2 2).get_non_locked_connections 0 0).isSome ∧
    (Game.new 2 2).get_non_locked_connections 2 0 = none :=
  ⟨(get_non_locked_connections_partiality (Game.new 2 2) 0 0).1 (by decide) (by decide)
    (by decide),
   (get_non_locked_connections_partiality (Game.new 2 2) 2 0).2 (Or.inl (by decide))⟩

/-! ## Panics of `Game::random_valid` on small boards (C1, C8)

On a 1×2 board the drain finishes with both cells locked and mutually
connected, but the repair scan then calls `Game::cells`, which panics because
of the swapped coordinates; the same happens on 2×1.  On 1×1 the very first
placement already panics: no shape has degree 0, so no cell matches the four
`(dir, false)` wall constraints. -/

/-- C1 evidence: `random_valid` never returns a grid on the 1×2 board (it
panics in the repair scan's `cells()` traversal) nor on the 1×1 board (no
cell configuration matches four "no connection" constraints). -/
theorem random_valid_1x2_and_1x1_panic :
    Game.random_valid 1 2 (fun _ => 0) 20 = .panicked ∧
    Game.random_valid 1 1 (fun _ => 0) 20 = .panicked := by
  constructor
  · decide
  · decide

/-- C8 evidence: on the 1×2 board with two horizontally adjacent cells
(width 2, height 1) the drain does lock both cells with the single mutual
connection — after two steps the board holds a locked `Single/West` at
`(1, 0)` and a locked `Single/East` at `(0, 0)`, each connecting exactly
toward the other — but the run then panics in the repair scan's `cells()`
traversal instead of returning this grid. -/
theorem random_valid_2x1_panics :
    Game.random_valid 2 1 (fun _ => 0) 20 = .panicked ∧
    stepFn (fun _ => 0) (initState 2 1) = .next (GenState.mk
      (Game.mk 2 1 [Cell.mk .Single .North false false, Cell.mk .Single .West true false])
      [(0, 0)] 1 0) ∧
    stepFn (fun _ => 0) (GenState.mk
      (Game.mk 2 1 [Cell.mk .Single .North false false, Cell.mk .Single .West true false])
      [(0, 0)] 1 0) = .next (GenState.mk
      (Game.mk 2 1 [Cell.mk .Single .East true false, Cell.mk .Single .West true false])
      [] 2 0) ∧
    Cell.connects (Cell.mk .Single .East true false) = [CellOrientation.East] ∧
    Cell.connects (Cell.mk .Single .West true false) = [CellOrientation.West] := by
  refine ⟨by decide, rfl, rfl, rfl, rfl⟩

/-! ## Termination of the generator (C3)

Every step of the machine strictly decreases the lexicographic measure
(number of unlocked cells, number of queue entries whose position is not
currently unlocked, emptiness of the queue), unless it finishes.  The repair
count is bounded through the invariant
`repairs + unlocked ≤ width*height + (1 if the queue holds an unlocked entry)`. -/

/-- Whether the position `p` currently holds an unlocked cell. -/
def isUnlockedAt (g : Game) (p : Nat × Nat) : Bool :=
  match g.get_cell p.1 p.2 with
  | some c => !c.locked
  | none => false

/-- Number of unlocked cells on the board. -/
def uCount (g : Game) : Nat := g.grid.countP (fun c => !c.locked)

/-- Number of queue entries whose position is not currently unlocked. -/
def lockedEntryCount (g : Game) (q : List (Nat × Nat)) : Nat :=
  q.countP (fun p => !(isUnlockedAt g p))

/-- Whether some queue entry points at an unlocked cell. -/
def hasUnlockedEntry (g : Game) (q : List (Nat × Nat)) : Bool :=
  q.any (fun p => isUnlockedAt g p)

theorem countP_set_get? {α : Type} (p : α → Bool) :
    ∀ (l : List α) (i : Nat) (a b : α), l.get? i = some b →
      (l.set i a).countP p + (if p b then 1 else 0)
        = l.countP p + (if p a then 1 else 0) := by
  intro l
  induction l with
  | nil => intro i a b h; cases h
  | cons hd tl ih =>
    intro i a b h
    cases i with
    | zero =>
      cases h
      simp only [List.set_cons_zero, List.countP_cons]
      omega
    | succ j =>
      have := ih j a b h
      simp only [List.set_cons_succ, List.countP_cons]
      omega

theorem get_cell_some_bounds {g : Game} {x y : Nat} {c : Cell}
    (h : g.get_cell x y = some c) :
    x < g.width ∧ y < g.height ∧ g.grid.get? (x + g.width * y) = some c := by
  unfold Game.get_cell at h
  by_cases hb : x ≥ g.width ∨ y ≥ g.height
  · simp [hb] at h
  · refine ⟨by omega, by omega, ?_⟩
    simpa [hb] using h

theorem get_cell_some_idx_lt {g : Game} {x y : Nat} {c : Cell}
    (h : g.get_cell x y = some c) : x + g.width * y < g.grid.length := by
  have h3 := (get_cell_some_bounds h).2.2
  rw [List.get?_eq_some] at h3
  exact h3.1

/-- Flat indices of distinct in-bounds positions differ. -/
theorem flat_index_ne {w x y a b : Nat} (hx : x < w) (ha : a < w)
    (hne : (a, b) ≠ (x, y)) : a + w * b ≠ x + w * y := by
  intro hEq
  apply hne
  have hb : b = y := by
    rcases Nat.lt_trichotomy b y with hlt | hEq' | hgt
    · have : a + w * b < w * (b + 1) := by
        have := Nat.mul_le_mul_left w (Nat.succ_le_of_lt hlt)
        nlinarith
      have : w * (b + 1) ≤ w * y := Nat.mul_le_mul_left w (by omega)
      omega
    · exact hEq'
    · have : x + w * y < w * (y + 1) := by nlinarith
      have : w * (y + 1) ≤ w * b := Nat.mul_le_mul_left w (by omega)
      omega
  subst hb
  have : a = x := by omega
  simp [this]

/-- Writing a cell at an in-bounds position leaves every other position's
lookup unchanged. -/
theorem get_cell_set_other {g : Game} {x y : Nat} {c0 : Cell}
    (h0 : g.get_cell x y = some c0) (cell : Cell) {a b : Nat}
    (hne : (a, b) ≠ (x, y)) :
    Game.get_cell { g with grid := g.grid.set (x + g.width * y) cell } a b
      = g.get_cell a b := by
  obtain ⟨hx, hy, hget⟩ := get_cell_some_bounds h0
  unfold Game.get_cell
  by_cases hb : a ≥ g.width ∨ b ≥ g.height
  · simp [hb]
  · have ha : a < g.width := by omega
    have hidx : a + g.width * b ≠ x + g.width * y := flat_index_ne hx ha hne
    simp [hb]
    rw [← List.get?_eq_getElem?, ← List.get?_eq_getElem?]
    exact List.get?_set_ne cell g.grid (Ne.symm hidx)

/-- Writing a cell at an in-bounds position makes that cell the lookup
result. -/
theorem get_cell_set_self {g : Game} {x y : Nat} {c0 : Cell}
    (h0 : g.get_cell x y = some c0) (cell : Cell) :
    Game.get_cell { g with grid := g.grid.set (x + g.width * y) cell } x y
      = some cell := by
  obtain ⟨hx, hy, hget⟩ := get_cell_some_bounds h0
  have hidx : x + g.width * y < g.grid.length := get_cell_some_idx_lt h0
  have hb : ¬(x ≥ g.width ∨ y ≥ g.height) := by omega
  unfold Game.get_cell
  simp [hb]
  rw [← List.get?_eq_getElem?]
  exact List.get?_set_eq_of_lt cell hidx

theorem set_cell_ok {g : Game} {x y : Nat} {cell : Cell} {g' : Game}
    (h : g.set_cell x y cell = .ok g') :
    ∃ c0, g.get_cell x y = some c0 ∧
      g' = { g with grid := g.grid.set (x + g.width * y) cell } := by
  unfold Game.set_cell at h
  by_cases hs : (g.get_cell x y).isSome
  · obtain ⟨c0, hc0⟩ := Option.isSome_iff_exists.mp hs
    refine ⟨c0, hc0, ?_⟩
    simp only [hs, if_true] at h
    cases h
    rfl
  · simp only [hs, Bool.false_eq_true, if_false] at h
    cases h

theorem set_lock_ok {g : Game} {x y : Nat} {b : Bool} {g' : Game}
    (h : g.set_lock x y b = .ok g') :
    ∃ c, g.grid.get? (x + g.width * y) = some c ∧
      g' = { g with grid := g.grid.set (x + g.width * y) { c with locked := b } } := by
  unfold Game.set_lock at h
  cases hc : g.grid.get? (x + g.width * y) with
  | none => rw [hc] at h; cases h
  | some c =>
    rw [hc] at h
    cases h
    exact ⟨c, rfl, rfl⟩

theorem step_from_ne {dir : CellOrientation} {x y : Nat} {p : Nat × Nat}
    (h : dir.step_from x y = some p) : p ≠ (x, y) := by
  cases dir
  all_goals
    simp only [CellOrientation.step_from, CellOrientation.shift] at h
    split at h
    case isTrue hcond =>
      cases h
      intro hEq
      injection hEq with h1 h2
      omega
    case isFalse hcond => cases h

theorem step_from_reverse {dir : CellOrientation} {x y : Nat} {p : Nat × Nat}
    (h : dir.step_from x y = some p) :
    dir.reverse.step_from p.1 p.2 = some (x, y) := by
  cases dir
  all_goals
    simp only [CellOrientation.reverse, CellOrientation.rotate, CellOrientation.toRepr,
      CellOrientation.step_from, CellOrientation.shift] at h ⊢
    split at h
    case isTrue hcond =>
      cases h
      rw [if_pos (by constructor <;> omega)]
      simp only [Option.some.injEq, Prod.mk.injEq]
      constructor <;> omega
    case isFalse hcond => cases h

theorem random_that_matches_some {cons : List (CellOrientation × Bool)} {choice : Nat}
    {cell : Cell} (h : Cell.random_that_matches_constraints cons choice = some cell) :
    cell.matches_constraints cons = true := by
  unfold Cell.random_that_matches_constraints at h
  have hmem := List.get?_mem h
  exact (List.mem_filter.mp hmem).2

theorem matches_true_mem {c : Cell} {cons : List (CellOrientation × Bool)}
    {d : CellOrientation} (h : c.matches_constraints cons = true)
    (hd : (d, true) ∈ cons) : d ∈ c.connects := by
  unfold Cell.matches_constraints at h
  have := (List.all_eq_true.mp h) (d, true) hd
  simp only [if_true] at this
  obtain ⟨e, he, hbe⟩ := List.any_eq_true.mp this
  rwa [show e = d from by simpa using hbe] at he

theorem nonLockedConnAux_mem_unlocked {g : Game} {x y : Nat} :
    ∀ {ds : List CellOrientation} {l : List (Nat × Nat)},
      g.nonLockedConnAux x y ds = some l →
      ∀ p ∈ l, ∃ c, g.get_cell p.1 p.2 = some c ∧ c.locked = false := by
  intro ds
  induction ds with
  | nil =>
    intro l h p hp
    cases h
    cases hp
  | cons dir rest ih =>
    intro l h p hp
    unfold Game.nonLockedConnAux at h
    cases hn : g.get_neighbor_at_direction x y dir with
    | none =>
      simp only [hn] at h
      exact ih h p hp
    | some neigh =>
      simp only [hn] at h
      by_cases hl : neigh.locked = true
      · rw [if_pos hl] at h
        exact ih h p hp
      · rw [if_neg hl] at h
        cases hs : dir.step_from x y with
        | none => simp only [hs] at h; cases h
        | some q =>
          simp only [hs] at h
          cases htl : g.nonLockedConnAux x y rest with
          | none => simp only [htl, Option.map_none'] at h; cases h
          | some tl =>
            simp only [htl, Option.map_some'] at h
            cases h
            rcases List.mem_cons.mp hp with hpq | hptl
            · subst hpq
              refine ⟨neigh, ?_, by simpa using hl⟩
              unfold Game.get_neighbor_at_direction at hn
              rw [hs] at hn
              exact hn
            · exact ih htl p hptl

theorem nonLockedConnAux_mem_intro {g : Game} {x y : Nat}
    {dir : CellOrientation} {p : Nat × Nat} {c : Cell}
    (hs : dir.step_from x y = some p)
    (hc : g.get_cell p.1 p.2 = some c) (hl : c.locked = false) :
    ∀ {ds : List CellOrientation} {l : List (Nat × Nat)},
      g.nonLockedConnAux x y ds = some l → dir ∈ ds → p ∈ l := by
  intro ds
  induction ds with
  | nil =>
    intro l _ hd
    cases hd
  | cons d rest ih =>
    intro l h hd
    unfold Game.nonLockedConnAux at h
    by_cases hdd : d = dir
    · subst hdd
      have hn : g.get_neighbor_at_direction x y d = some c := by
        unfold Game.get_neighbor_at_direction
        rw [hs]
        exact hc
      simp only [hn, hl, Bool.false_eq_true, if_false] at h
      simp only [hs] at h
      cases htl : g.nonLockedConnAux x y rest with
      | none => simp only [htl, Option.map_none'] at h; cases h
      | some tl =>
        simp only [htl, Option.map_some'] at h
        cases h
        exact List.mem_cons_self p tl
    · have hd' : dir ∈ rest := by
        rcases List.mem_cons.mp hd with h1 | h1
        · exact absurd h1.symm hdd
        · exact h1
      cases hn : g.get_neighbor_at_direction x y d with
      | none =>
        simp only [hn] at h
        exact ih h hd'
      | some neigh =>
        simp only [hn] at h
        by_cases hnl : neigh.locked = true
        · rw [if_pos hnl] at h
          exact ih h hd'
        · rw [if_neg hnl] at h
          cases hsd : d.step_from x y with
          | none => simp only [hsd] at h; cases h
          | some q =>
            simp only [hsd] at h
            cases htl : g.nonLockedConnAux x y rest with
            | none => simp only [htl, Option.map_none'] at h; cases h
            | some tl =>
              simp only [htl, Option.map_some'] at h
              cases h
              exact List.mem_cons_of_mem q (ih htl hd')

theorem cellsAux_mem {g : Game} :
    ∀ {ps : List (Nat × Nat)} {l : List (Nat × Nat × Cell)},
      g.cellsAux ps = some l →
      ∀ x y c, (x, y, c) ∈ l → g.get_cell x y = some c := by
  intro ps
  induction ps with
  | nil =>
    intro l h x y c hm
    cases h
    cases hm
  | cons q rest ih =>
    intro l h x y c hm
    unfold Game.cellsAux at h
    cases hq : g.get_cell q.1 q.2 with
    | none => simp only [hq] at h; cases h
    | some cq =>
      simp only [hq] at h
      cases htl : g.cellsAux rest with
      | none => simp only [htl, Option.map_none'] at h; cases h
      | some tl =>
        simp only [htl, Option.map_some'] at h
        cases h
        rcases List.mem_cons.mp hm with h1 | h1
        · injection h1 with e1 e2
          injection e2 with e2 e3
          subst e1
          subst e2
          subst e3
          exact hq
        · exact ih htl x y c h1

theorem get_neighbors_mem {g : Game} {x y : Nat} {dir : CellOrientation} {c : Cell}
    (h : (dir, c) ∈ g.get_neighbors x y) :
    g.get_neighbor_at_direction x y dir = some c := by
  unfold Game.get_neighbors at h
  obtain ⟨d, _, hd⟩ := List.mem_filterMap.mp h
  cases hn : g.get_neighbor_at_direction x y d with
  | none => rw [hn] at hd; cases hd
  | some c' =>
    rw [hn] at hd
    injection hd with hd
    injection hd with e1 e2
    subst e1; subst e2
    exact hn

theorem scanCandidatesAux_mem {g : Game} :
    ∀ {ts : List (Nat × Nat × Cell)} {t : Nat × Nat × CellOrientation},
      t ∈ scanCandidatesAux g ts →
      ∃ c, (t.1, t.2.1, c) ∈ ts ∧ c.locked = false ∧
        ∃ nc, g.get_neighbor_at_direction t.1 t.2.1 t.2.2 = some nc ∧
          nc.locked = true ∧ nc.version ≠ CellVersion.Triple := by
  intro ts
  induction ts with
  | nil =>
    intro t ht
    cases ht
  | cons hd rest ih =>
    obtain ⟨x, y, c⟩ := hd
    intro t ht
    unfold scanCandidatesAux at ht
    by_cases hl : c.locked = true
    · rw [if_pos hl] at ht
      obtain ⟨c', hm, hrest⟩ := ih ht
      exact ⟨c', List.mem_cons_of_mem _ hm, hrest⟩
    · rw [if_neg hl] at ht
      cases hfs : (g.get_neighbors x y).findSome? (fun p =>
          if p.2.locked && p.2.version != CellVersion.Triple then some (x, y, p.1)
          else none) with
      | none =>
        rw [hfs] at ht
        obtain ⟨c', hm, hrest⟩ := ih ht
        exact ⟨c', List.mem_cons_of_mem _ hm, hrest⟩
      | some t0 =>
        rw [hfs] at ht
        rcases List.mem_cons.mp ht with h1 | h1
        · subst h1
          obtain ⟨p, hpmem, hp⟩ := List.exists_of_findSome?_eq_some hfs
          by_cases hcond : (p.2.locked && p.2.version != CellVersion.Triple) = true
          · rw [if_pos hcond] at hp
            injection hp with hp
            subst hp
            obtain ⟨d, nc⟩ := p
            simp only [Bool.and_eq_true, bne_iff_ne] at hcond
            refine ⟨c, List.mem_cons_self _ _, by simpa using hl,
              nc, get_neighbors_mem hpmem, hcond.1, hcond.2⟩
          · rw [if_neg hcond] at hp
            cases hp
        · obtain ⟨c', hm, hrest⟩ := ih h1
          exact ⟨c', List.mem_cons_of_mem _ hm, hrest⟩

/-- Characterization of a successful drain step: the popped cell exists, the
new grid differs from the old only at the popped position (which now holds a
locked cell), the queue continues with the pushes appended, and every pushed
position holds an unlocked cell of the new grid. -/
theorem processCell_next {O : Nat → Nat} {s : GenState} {x y : Nat}
    {rest : List (Nat × Nat)} {s' : GenState}
    (h : processCell O s x y rest = .next s') :
    ∃ (c0 cell : Cell) (pushes : List (Nat × Nat)),
      s.game.get_cell x y = some c0 ∧
      s'.game = { s.game with
        grid := s.game.grid.set (x + s.game.width * y) ({ cell with locked := true }) } ∧
      s'.queue = rest ++ pushes ∧
      s'.repairs = s.repairs ∧
      (∀ p ∈ pushes, isUnlockedAt s'.game p = true) := by
  unfold processCell at h
  cases hsoft : softConstraintsAux x y rest (s.game.get_neighbors x y) with
  | none => simp only [hsoft] at h; cases h
  | some soft =>
    simp only [hsoft] at h
    cases hrand : Cell.random_that_matches_constraints
        (s.game.get_cell_constraints x y ++ soft) (O s.ctr) with
    | none => simp only [hrand] at h; cases h
    | some cell =>
      simp only [hrand] at h
      cases hsc : s.game.set_cell x y cell with
      | error e => simp only [hsc] at h; cases h
      | ok g1 =>
        simp only [hsc] at h
        cases hsl : g1.set_lock x y true with
        | error e => simp only [hsl] at h; cases h
        | ok g2 =>
          simp only [hsl] at h
          cases hnl : g2.get_non_locked_connections x y with
          | none => simp only [hnl] at h; cases h
          | some pushes =>
            simp only [hnl] at h
            cases h
            obtain ⟨c0, hc0, hg1⟩ := set_cell_ok hsc
            subst hg1
            obtain ⟨cL, hcL, hg2⟩ := set_lock_ok hsl
            have hidx : x + s.game.width * y < s.game.grid.length :=
              get_cell_some_idx_lt hc0
            have hcL' : cL = cell := by
              have hset : ({ s.game with grid := s.game.grid.set (x + s.game.width * y) cell }
                  : Game).grid.get? (x + s.game.width * y) = some cell := by
                simpa using List.get?_set_eq_of_lt cell hidx
              rw [hset] at hcL
              injection hcL with hcL
              exact hcL.symm
            subst hcL'
            have hg2' : g2 = { s.game with grid := s.game.grid.set (x + s.game.width * y) ({ cL with locked := true }) } := by
              rw [hg2]
              simp [List.set_set]
            refine ⟨c0, cL, pushes, hc0, hg2'.symm ▸ rfl, rfl, rfl, ?_⟩
            intro p hp
            unfold Game.get_non_locked_connections at hnl
            cases hgc : g2.get_cell x y with
            | none =>
              simp only [hgc] at hnl
              cases hnl
            | some cNew =>
              simp only [hgc] at hnl
              obtain ⟨c', hc', hlck⟩ := nonLockedConnAux_mem_unlocked hnl p hp
              unfold isUnlockedAt
              simp only [hc', hlck, Bool.not_false]

theorem connects_locked_update (c : Cell) (b : Bool) :
    ({ c with locked := b } : Cell).connects = c.connects := rfl

/-- Characterization of a successful repair step: the repaired neighbor
exists in the old grid, the re-sampled cell satisfies the forced "connect
back" constraint, the new grid differs only at the repaired position (now
locked), and the queue is reseeded with unlocked pushes. -/
theorem repairStep_next {O : Nat → Nat} {s : GenState} {x y : Nat}
    {dir : CellOrientation} {s' : GenState}
    (h : repairStep O s x y dir = .next s') :
    ∃ (lp : Nat × Nat) (cL cell : Cell) (pushes : List (Nat × Nat))
      (consPre : List (CellOrientation × Bool)),
      dir.step_from x y = some lp ∧
      s.game.grid.get? (lp.1 + s.game.width * lp.2) = some cL ∧
      cell.matches_constraints (consPre ++ [(dir.reverse, true)]) = true ∧
      s'.game = { s.game with
        grid := s.game.grid.set (lp.1 + s.game.width * lp.2) ({ cell with locked := true }) } ∧
      s'.game.get_non_locked_connections lp.1 lp.2 = some pushes ∧
      s'.queue = pushes ∧
      s'.repairs = s.repairs + 1 ∧
      (∀ p ∈ pushes, isUnlockedAt s'.game p = true) := by
  unfold repairStep at h
  cases hstep : dir.step_from x y with
  | none => simp only [hstep] at h; cases h
  | some lp =>
    simp only [hstep] at h
    cases hsl : s.game.set_lock lp.1 lp.2 false with
    | error e => simp only [hsl] at h; cases h
    | ok g1 =>
      simp only [hsl] at h
      cases hrand : Cell.random_that_matches_constraints
          (g1.get_cell_constraints lp.1 lp.2 ++ [(dir.reverse, true)]) (O (s.ctr + 1)) with
      | none => simp only [hrand] at h; cases h
      | some cell =>
        simp only [hrand] at h
        cases hsc : g1.set_cell lp.1 lp.2 cell with
        | error e => simp only [hsc] at h; cases h
        | ok g2 =>
          simp only [hsc] at h
          cases hsl2 : g2.set_lock lp.1 lp.2 true with
          | error e => simp only [hsl2] at h; cases h
          | ok g3 =>
            simp only [hsl2] at h
            cases hnl : g3.get_non_locked_connections lp.1 lp.2 with
            | none => simp only [hnl] at h; cases h
            | some pushes =>
              simp only [hnl] at h
              cases h
              obtain ⟨cL, hcL, hg1⟩ := set_lock_ok hsl
              subst hg1
              obtain ⟨cM, hcM, hg2⟩ := set_cell_ok hsc
              subst hg2
              obtain ⟨cN, hcN, hg3⟩ := set_lock_ok hsl2
              have hidx : lp.1 + s.game.width * lp.2 < s.game.grid.length := by
                have := List.get?_eq_some.mp hcL
                exact this.1
              have hcN' : cN = cell := by
                have hset : (((({ s.game with grid := s.game.grid.set (lp.1 + s.game.width * lp.2) ({ cL with locked := false }) } : Game)).grid.set (lp.1 + s.game.width * lp.2) cell).get? (lp.1 + s.game.width * lp.2)) = some cell := by
                  apply List.get?_set_eq_of_lt
                  simpa using hidx
                simp only [hset] at hcN
                injection hcN with hcN
                exact hcN.symm
              subst hcN'
              have hg3' : g3 = { s.game with grid := s.game.grid.set (lp.1 + s.game.width * lp.2) ({ cN with locked := true }) } := by
                rw [hg3]
                simp [List.set_set]
              subst hg3'
              refine ⟨lp, cL, cN, pushes, _, rfl, hcL, random_that_matches_some hrand, rfl, hnl, rfl, rfl, ?_⟩
              intro p hp
              unfold Game.get_non_locked_connections at hnl
              cases hgc : Game.get_cell { s.game with
                  grid := s.game.grid.set (lp.1 + s.game.width * lp.2) ({ cN with locked := true }) } lp.1 lp.2 with
              | none =>
                simp only [hgc] at hnl
                cases hnl
              | some cNew =>
                simp only [hgc] at hnl
                obtain ⟨c', hc', hlck⟩ := nonLockedConnAux_mem_unlocked hnl p hp
                unfold isUnlockedAt
                simp only [hc', hlck, Bool.not_false]

/-- A scan step that continues performs exactly one repair: it preserves the
board dimensions and the number of unlocked cells (the repaired neighbor was
already locked), it requires at least one unlocked cell (the orphan found by
the scan), and it reseeds the queue with a nonempty list of positions that
all hold unlocked cells. -/
theorem stepFn_scan_next {O : Nat → Nat} {s : GenState} {s' : GenState}
    (hq : s.queue = []) (h : stepFn O s = .next s') :
    s'.game.width = s.game.width ∧ s'.game.height = s.game.height ∧
    s'.game.grid.length = s.game.grid.length ∧
    s'.repairs = s.repairs + 1 ∧
    uCount s'.game = uCount s.game ∧ 1 ≤ uCount s.game ∧
    s'.queue ≠ [] ∧ (∀ p ∈ s'.queue, isUnlockedAt s'.game p = true) := by
  unfold stepFn at h
  simp only [hq] at h
  cases hcells : s.game.cells with
  | none => simp only [hcells] at h; cases h
  | some triples =>
    simp only [hcells] at h
    cases hcand : scanCandidatesAux s.game triples with
    | nil => simp only [hcand] at h; cases h
    | cons c cs =>
      simp only [hcand] at h
      cases hget : (c :: cs).get? (O s.ctr % (c :: cs).length) with
      | none => simp only [hget] at h; cases h
      | some t =>
        simp only [hget] at h
        have htmem : t ∈ scanCandidatesAux s.game triples := hcand ▸ List.get?_mem hget
        obtain ⟨corph, hcorphmem, hcorphunl, nc, hnc, hnclocked, _⟩ :=
          scanCandidatesAux_mem htmem
        have hcorph : s.game.get_cell t.1 t.2.1 = some corph := by
          unfold Game.cells at hcells
          exact cellsAux_mem hcells t.1 t.2.1 corph hcorphmem
        obtain ⟨lp, cL, cell, pushes, consPre, hstep, hcL, hmatch, hgame, hgnlc,
          hqueue, hrep, hpush⟩ := repairStep_next h
        have hnc' : s.game.get_cell lp.1 lp.2 = some nc := by
          unfold Game.get_neighbor_at_direction at hnc
          rw [hstep] at hnc
          exact hnc
        have hcLnc : cL = nc := by
          have hget2 := (get_cell_some_bounds hnc').2.2
          rw [hget2] at hcL
          injection hcL with hcL
          exact hcL.symm
        subst hcLnc
        have hwidth : s'.game.width = s.game.width := by rw [hgame]
        have hheight : s'.game.height = s.game.height := by rw [hgame]
        have hlen : s'.game.grid.length = s.game.grid.length := by
          rw [hgame]
          simp
        have huc : uCount s'.game = uCount s.game := by
          have hps := countP_set_get? (fun c => !c.locked) s.game.grid
            (lp.1 + s.game.width * lp.2) ({ cell with locked := true }) cL hcL
          rw [hgame]
          unfold uCount
          simp only [hnclocked, Bool.not_true, Bool.false_eq_true, if_false] at hps
          simpa using hps
        have hone : 1 ≤ uCount s.game := by
          have hmem : corph ∈ s.game.grid := List.get?_mem (get_cell_some_bounds hcorph).2.2
          exact List.countP_pos.mpr ⟨corph, hmem, by simp [hcorphunl]⟩
        have hrevmem : (t.2.2).reverse ∈ cell.connects :=
          matches_true_mem hmatch (List.mem_append_right _ (List.mem_singleton_self _))
        have hsr := step_from_reverse hstep
        have hneq : ((t.1, t.2.1) : Nat × Nat) ≠ (lp.1, lp.2) := by
          have hne := (step_from_ne hstep).symm
          simpa using hne
        have hcorph' : s'.game.get_cell t.1 t.2.1 = some corph := by
          rw [hgame]
          rw [get_cell_set_other hnc' ({ cell with locked := true }) hneq]
          exact hcorph
        have hself : s'.game.get_cell lp.1 lp.2 = some ({ cell with locked := true }) := by
          rw [hgame]
          exact get_cell_set_self hnc' _
        unfold Game.get_non_locked_connections at hgnlc
        simp only [hself] at hgnlc
        rw [connects_locked_update] at hgnlc
        have horphmem : ((t.1, t.2.1) : Nat × Nat) ∈ pushes :=
          nonLockedConnAux_mem_intro hsr hcorph' hcorphunl hgnlc hrevmem
        refine ⟨hwidth, hheight, hlen, hrep, huc, hone, ?_, ?_⟩
        · rw [hqueue]
          exact List.ne_nil_of_mem horphmem
        · intro p hp
          rw [hqueue] at hp
          exact hpush p hp

/-- A drain step that continues preserves the dimensions and the repair
count; it pops `(x, y)`, appends unlocked pushes to the queue, and either
locks a previously unlocked cell (the unlocked count drops) or re-places an
already locked cell (all lock states are untouched). -/
theorem stepFn_pop_next {O : Nat → Nat} {s : GenState} {x y : Nat}
    {rest : List (Nat × Nat)} {s' : GenState}
    (hq : s.queue = (x, y) :: rest) (h : stepFn O s = .next s') :
    s'.game.width = s.game.width ∧ s'.game.height = s.game.height ∧
    s'.game.grid.length = s.game.grid.length ∧ s'.repairs = s.repairs ∧
    ∃ (c0 : Cell) (pushes : List (Nat × Nat)),
      s.game.get_cell x y = some c0 ∧ s'.queue = rest ++ pushes ∧
      (∀ p ∈ pushes, isUnlockedAt s'.game p = true) ∧
      ((c0.locked = false ∧ uCount s'.game + 1 = uCount s.game) ∨
       (c0.locked = true ∧ uCount s'.game = uCount s.game ∧
        (∀ p, isUnlockedAt s'.game p = isUnlockedAt s.game p))) := by
  unfold stepFn at h
  simp only [hq] at h
  obtain ⟨c0, cell, pushes, hc0, hgame, hqueue, hrep, hpush⟩ := processCell_next h
  have hidxget := (get_cell_some_bounds hc0).2.2
  have hps := countP_set_get? (fun c => !c.locked) s.game.grid (x + s.game.width * y)
    ({ cell with locked := true }) c0 hidxget
  refine ⟨by rw [hgame], by rw [hgame], by rw [hgame]; simp, hrep, c0, pushes, hc0,
    hqueue, hpush, ?_⟩
  cases hl : c0.locked with
  | false =>
    left
    refine ⟨rfl, ?_⟩
    have : uCount s'.game = uCount { s.game with
        grid := s.game.grid.set (x + s.game.width * y) ({ cell with locked := true }) } := by
      rw [hgame]
    rw [this]
    unfold uCount
    simp only [hl, Bool.not_false, if_true, Bool.not_true, Bool.false_eq_true, if_false] at hps
    simpa using hps
  | true =>
    right
    refine ⟨rfl, ?_, ?_⟩
    · have huc : uCount s'.game = uCount { s.game with
          grid := s.game.grid.set (x + s.game.width * y) ({ cell with locked := true }) } := by
        rw [hgame]
      rw [huc]
      unfold uCount
      simp only [hl, Bool.not_true, Bool.false_eq_true, if_false] at hps
      simpa using hps
    · intro p
      by_cases hp : p = (x, y)
      · subst hp
        have hnew : s'.game.get_cell x y = some ({ cell with locked := true }) := by
          rw [hgame]
          exact get_cell_set_self hc0 _
        unfold isUnlockedAt
        simp only [hnew, hc0, hl]
      · have hp' : ((p.1, p.2) : Nat × Nat) ≠ (x, y) := by
          simpa using hp
        have hsame : s'.game.get_cell p.1 p.2 = s.game.get_cell p.1 p.2 := by
          rw [hgame]
          exact get_cell_set_other hc0 _ hp'
        unfold isUnlockedAt
        rw [hsame]

/-- In the drain phase a finishing step can only be a panic. -/
theorem stepFn_pop_done {O : Nat → Nat} {s : GenState} {x y : Nat}
    {rest : List (Nat × Nat)} {r : RunResult}
    (hq : s.queue = (x, y) :: rest) (h : stepFn O s = .done r) : r = .panicked := by
  unfold stepFn processCell at h
  simp only [hq] at h
  repeat' split at h
  all_goals cases h <;> rfl

/-- In the scan phase a finishing step is a panic or a normal return of the
current board with the current repair count. -/
theorem stepFn_scan_done {O : Nat → Nat} {s : GenState} {r : RunResult}
    (hq : s.queue = []) (h : stepFn O s = .done r) :
    r = .panicked ∨ r = .ok s.game s.repairs := by
  unfold stepFn repairStep at h
  simp only [hq] at h
  repeat' split at h
  all_goals cases h <;> simp

theorem runLoop_succ_done {O : Nat → Nat} {n : Nat} {s : GenState} {r : RunResult}
    (h : stepFn O s = .done r) : runLoop O (n + 1) s = r := by
  show (match stepFn O s with
        | .done r => r
        | .next s1 => runLoop O n s1) = r
  simp only [h]

theorem runLoop_succ_next {O : Nat → Nat} {n : Nat} {s s' : GenState}
    (h : stepFn O s = .next s') : runLoop O (n + 1) s = runLoop O n s' := by
  show (match stepFn O s with
        | .done r => r
        | .next s1 => runLoop O n s1) = runLoop O n s'
  simp only [h]

/-- Bookkeeping for a locked pop: the queue loses exactly one entry that
points at a non-unlocked cell. -/
theorem lockedEntry_decrease {s s1 : GenState} {x y : Nat}
    {rest pushes : List (Nat × Nat)} {c0 : Cell}
    (hq : s.queue = (x, y) :: rest) (hq1 : s1.queue = rest ++ pushes)
    (hc0 : s.game.get_cell x y = some c0) (hl0 : c0.locked = true)
    (hpush : ∀ p ∈ pushes, isUnlockedAt s1.game p = true)
    (hpoint : ∀ p, isUnlockedAt s1.game p = isUnlockedAt s.game p) :
    lockedEntryCount s1.game s1.queue + 1 = lockedEntryCount s.game s.queue := by
  unfold lockedEntryCount
  rw [hq, hq1, List.countP_append, List.countP_cons]
  have h1 : pushes.countP (fun p => !(isUnlockedAt s1.game p)) = 0 :=
    List.countP_eq_zero.mpr (fun p hp => by simp [hpush p hp])
  have h2 : rest.countP (fun p => !(isUnlockedAt s1.game p))
      = rest.countP (fun p => !(isUnlockedAt s.game p)) :=
    List.countP_congr (fun p _ => by rw [hpoint p])
  have h3 : (!(isUnlockedAt s.game (x, y))) = true := by
    unfold isUnlockedAt
    simp [hc0, hl0]
  rw [h1, h2, h3]
  simp

/-- Every run of the generator machine reaches a result with enough fuel:
each step either finishes or strictly decreases the lexicographic measure
(unlocked cells, non-unlocked queue entries), with a repair step followed at
once by an unlocked pop. -/
theorem runLoop_no_timeout (O : Nat → Nat) :
    ∀ u lE (s : GenState), uCount s.game = u →
      lockedEntryCount s.game s.queue = lE →
      ∃ n, runLoop O n s ≠ .timeout := by
  intro u
  induction u using Nat.strong_induction_on with
  | _ u IHu =>
    intro lE
    induction lE using Nat.strong_induction_on with
    | _ lE IHl =>
      intro s hu hl
      cases hq : s.queue with
      | cons p rest =>
        obtain ⟨x, y⟩ := p
        cases hstep : stepFn O s with
        | done r =>
          refine ⟨1, ?_⟩
          rw [runLoop_succ_done hstep, stepFn_pop_done hq hstep]
          intro hc
          cases hc
        | next s1 =>
          obtain ⟨hw, hh, hlen, hrep, c0, pushes, hc0, hqueue, hpush, hcases⟩ :=
            stepFn_pop_next hq hstep
          rcases hcases with ⟨hl0, hucount⟩ | ⟨hl0, hucount, hpoint⟩
          · obtain ⟨n, hn⟩ := IHu (uCount s1.game) (by omega)
              (lockedEntryCount s1.game s1.queue) s1 rfl rfl
            refine ⟨n + 1, ?_⟩
            rw [runLoop_succ_next hstep]
            exact hn
          · have hle : lockedEntryCount s1.game s1.queue + 1
                = lockedEntryCount s.game s.queue :=
              lockedEntry_decrease hq hqueue hc0 hl0 hpush hpoint
            obtain ⟨n, hn⟩ := IHl (lockedEntryCount s1.game s1.queue) (by omega) s1
              (by omega) rfl
            refine ⟨n + 1, ?_⟩
            rw [runLoop_succ_next hstep]
            exact hn
      | nil =>
        cases hstep : stepFn O s with
        | done r =>
          refine ⟨1, ?_⟩
          rw [runLoop_succ_done hstep]
          rcases stepFn_scan_done hq hstep with h1 | h1 <;> subst h1 <;> intro hc <;> cases hc
        | next s1 =>
          obtain ⟨hw, hh, hlen, hrep, huc, hone, hqne, hallunl⟩ := stepFn_scan_next hq hstep
          cases hq1 : s1.queue with
          | nil => exact absurd hq1 hqne
          | cons p1 rest1 =>
            obtain ⟨x1, y1⟩ := p1
            cases hstep1 : stepFn O s1 with
            | done r =>
              refine ⟨2, ?_⟩
              rw [runLoop_succ_next hstep, runLoop_succ_done hstep1,
                stepFn_pop_done hq1 hstep1]
              intro hc
              cases hc
            | next s2 =>
              obtain ⟨hw1, hh1, hlen1, hrep1, c1, pushes1, hc1, hqueue1, hpush1, hcases1⟩ :=
                stepFn_pop_next hq1 hstep1
              have hfrontunl : isUnlockedAt s1.game (x1, y1) = true :=
                hallunl (x1, y1) (by rw [hq1]; exact List.mem_cons_self _ _)
              rcases hcases1 with ⟨hl1, hucnt1⟩ | ⟨hl1, hucnt1, hpoint1⟩
              · obtain ⟨n, hn⟩ := IHu (uCount s2.game) (by omega)
                  (lockedEntryCount s2.game s2.queue) s2 rfl rfl
                refine ⟨n + 2, ?_⟩
                rw [runLoop_succ_next hstep, runLoop_succ_next hstep1]
                exact hn
              · exfalso
                unfold isUnlockedAt at hfrontunl
                simp [hc1, hl1] at hfrontunl

/-- The repair-count invariant: along any run,
`repairs + unlocked ≤ width*height + (1 if the queue holds an unlocked
entry)`, so a normal return carries at most `width*height` repairs. -/
theorem runLoop_ok_repair_bound (O : Nat → Nat) :
    ∀ (n : Nat) (s : GenState) (g : Game) (r : Nat),
      s.game.grid.length = s.game.width * s.game.height →
      s.repairs + uCount s.game ≤ s.game.width * s.game.height
        + (if hasUnlockedEntry s.game s.queue then 1 else 0) →
      runLoop O n s = .ok g r → r ≤ s.game.width * s.game.height := by
  intro n
  induction n with
  | zero =>
    intro s g r _ _ hrun
    cases hrun
  | succ n ih =>
    intro s g r hlen hJ hrun
    cases hstep : stepFn O s with
    | done r' =>
      rw [runLoop_succ_done hstep] at hrun
      subst hrun
      cases hqs : s.queue with
      | cons p rest =>
        have := stepFn_pop_done hqs hstep
        cases this
      | nil =>
        rcases stepFn_scan_done hqs hstep with h1 | h1
        · cases h1
        · injection h1 with hg hr
          subst hr
          have hx : hasUnlockedEntry s.game s.queue = false := by
            rw [hqs]
            rfl
          rw [hx] at hJ
          simp at hJ
          omega
    | next s1 =>
      rw [runLoop_succ_next hstep] at hrun
      cases hqs : s.queue with
      | cons p rest =>
        obtain ⟨x, y⟩ := p
        obtain ⟨hw, hh, hlen1, hrep, c0, pushes, hc0, hqueue, hpush, hcases⟩ :=
          stepFn_pop_next hqs hstep
        have hwh : s1.game.width * s1.game.height = s.game.width * s.game.height := by
          rw [hw, hh]
        have hlen1' : s1.game.grid.length = s1.game.width * s1.game.height := by
          rw [hlen1, hwh, hlen]
        have hfront : isUnlockedAt s.game (x, y) = !c0.locked := by
          unfold isUnlockedAt
          simp only [hc0]
        rcases hcases with ⟨hl0, hucount⟩ | ⟨hl0, hucount, hpoint⟩
        · -- unlocked pop: the entry itself witnesses an unlocked entry
          have hx : hasUnlockedEntry s.game s.queue = true := by
            unfold hasUnlockedEntry
            rw [hqs]
            simp only [List.any_cons, Bool.or_eq_true]
            left
            rw [hfront, hl0]
            rfl
          rw [hx] at hJ
          have hJ1 : s1.repairs + uCount s1.game ≤ s1.game.width * s1.game.height
              + (if hasUnlockedEntry s1.game s1.queue then 1 else 0) := by
            rw [hrep, hwh]
            have : (if hasUnlockedEntry s1.game s1.queue then 1 else 0) ≥ 0 := by omega
            simp only [if_true] at hJ
            split <;> omega
          have := ih s1 g r hlen1' hJ1 hrun
          omega
        · -- locked pop: an unlocked witness entry survives in the tail
          have hJ1 : s1.repairs + uCount s1.game ≤ s1.game.width * s1.game.height
              + (if hasUnlockedEntry s1.game s1.queue then 1 else 0) := by
            rw [hrep, hwh, hucount]
            cases hx : hasUnlockedEntry s.game s.queue with
            | false =>
              rw [hx] at hJ
              simp only [Bool.false_eq_true, if_false] at hJ
              split <;> omega
            | true =>
              -- the unlocked entry cannot be the locked front, so it is in the tail
              obtain ⟨e, hemem, heunl⟩ := List.any_eq_true.mp hx
              rw [hqs] at hemem
              rcases List.mem_cons.mp hemem with he | he
              · subst he
                rw [hfront, hl0] at heunl
                cases heunl
              · have hx1 : hasUnlockedEntry s1.game s1.queue = true := by
                  unfold hasUnlockedEntry
                  rw [hqueue]
                  refine List.any_eq_true.mpr ⟨e, List.mem_append_left _ he, ?_⟩
                  rw [hpoint e]
                  exact heunl
                rw [hx] at hJ
                rw [hx1]
                simp only [if_true] at hJ ⊢
                omega
          have := ih s1 g r hlen1' hJ1 hrun
          omega
      | nil =>
        obtain ⟨hw, hh, hlen1, hrep, huc, hone, hqne, hallunl⟩ := stepFn_scan_next hqs hstep
        have hwh : s1.game.width * s1.game.height = s.game.width * s.game.height := by
          rw [hw, hh]
        have hlen1' : s1.game.grid.length = s1.game.width * s1.game.height := by
          rw [hlen1, hwh, hlen]
        have hx : hasUnlockedEntry s.game s.queue = false := by
          rw [hqs]
          rfl
        rw [hx] at hJ
        simp only [Bool.false_eq_true, if_false] at hJ
        have hx1 : hasUnlockedEntry s1.game s1.queue = true := by
          unfold hasUnlockedEntry
          cases hq1 : s1.queue with
          | nil => exact absurd hq1 hqne
          | cons p1 rest1 =>
            refine List.any_eq_true.mpr ⟨p1, List.mem_cons_self _ _, ?_⟩
            exact hallunl p1 (by rw [hq1]; exact List.mem_cons_self _ _)
        have hJ1 : s1.repairs + uCount s1.game ≤ s1.game.width * s1.game.height
            + (if hasUnlockedEntry s1.game s1.queue then 1 else 0) := by
          rw [hrep, hwh, huc, hx1]
          simp only [if_true]
          omega
        have := ih s1 g r hlen1' hJ1 hrun
        omega

/-- C3: for every width and height at least 1 and every sequence of random
choices, `random_valid` terminates: with enough fuel the step machine reaches
a result — a returned grid or a panic — instead of running forever, and when
a grid is returned the outer loop performed at most `width * height` repair
steps. -/
theorem random_valid_terminates (width height : Nat)
    (hw : 1 ≤ width) (hh : 1 ≤ height) (O : Nat → Nat) :
    ∃ gas, Game.random_valid width height O gas ≠ .timeout ∧
      ∀ g r, Game.random_valid width height O gas = .ok g r →
        r ≤ width * height := by
  obtain ⟨n, hn⟩ := runLoop_no_timeout O (uCount (initState width height).game)
    (lockedEntryCount (initState width height).game (initState width height).queue)
    (initState width height) rfl rfl
  refine ⟨n, hn, ?_⟩
  intro g r hrun
  have hlen : (initState width height).game.grid.length
      = (initState width height).game.width * (initState width height).game.height := by
    simp [initState, Game.new]
  have hu : uCount (initState width height).game = width * height := by
    unfold uCount initState Game.new
    simp [List.countP_replicate]
  have hJ : (initState width height).repairs + uCount (initState width height).game
      ≤ (initState width height).game.width * (initState width height).game.height
        + (if hasUnlockedEntry (initState width height).game
             (initState width height).queue then 1 else 0) := by
    rw [hu]
    show 0 + width * height ≤ width * height + _
    split <;> omega
  have := runLoop_ok_repair_bound O n (initState width height) g r hlen hJ hrun
  exact this

theorem random_valid_terminates_witness :
    1 ≤ 2 ∧
    (∃ gas, Game.random_valid 2 2 (fun _ => 0) gas ≠ .timeout ∧
      ∀ g r, Game.random_valid 2 2 (fun _ => 0) gas = .ok g r → r ≤ 2 * 2) :=
  ⟨by decide, random_valid_terminates 2 2 (by decide) (by decide) (fun _ => 0)⟩

end PuzzleNet
